import Mathlib

/-!
Verification of the backup/verify/restore engine of `macos-backup-tauri`
(`src-tauri/src/lib.rs`) against its natural-language specification.

The Rust source is shallowly embedded: the filesystem visible to an
operation is an explicit finite state passed in and returned, the SHA-256
digest routine is an abstract parameter `hashFn` (the engine only compares
digest strings for equality), external processes (tar, zstd, brew) are
modelled by their observable inputs/outputs (exit status, whether the
target file exists, stdout lines), and fallible operations return
`Except`/`Option`.  Definitions are translated from the source functions
named in each doc comment; theorems settle the specification's claims.
-/

namespace MacBackup

/-- Mirrors struct `BackupItem` (lib.rs:67-74); sizes as `Nat`. -/
structure BackupItem where
  path : String
  archive : String
  hash : String
  archive_size_bytes : Nat
  source_size_bytes : Nat
deriving DecidableEq, Repr

/-- Mirrors struct `BackupMetadata` (lib.rs:76-85), the manifest of one run. -/
structure BackupMetadata where
  timestamp : String
  items : List BackupItem
  hash_algorithm : String
  total_source_size_bytes : Nat
  start_time : String
  end_time : String
  duration_seconds : Nat
deriving DecidableEq, Repr

/-- Mirrors struct `VerifyResult` (lib.rs:109-116). -/
structure VerifyResult where
  success : Bool
  total_files : Nat
  verified_files : Nat
  failed_files : List String
  message : String
deriving DecidableEq, Repr

/-- Mirrors struct `BackupListItem` (lib.rs:103-107). -/
structure BackupListItem where
  timestamp : String
  hash_verified : Bool
deriving DecidableEq, Repr

/-! ## Archive codec: `create_tar_gz` (lib.rs:792-884)

The spawned tar process is modelled by its observable exit
(`exitSuccess`, `exitCode`), whether the target archive file exists on
disk after it was awaited (`targetExists`), and the value of the
process-wide cancellation flag `BACKUP_CANCELLED` read at lib.rs:859
(`cancelled`).  `targetRemoved` records whether `fs::remove_file(target)`
(lib.rs:860) was executed. -/

/-- Result of one `create_tar_gz` call: `Ok(())` or `Err(msg)`. -/
inductive TarResult where
  | ok
  | err (msg : String)
deriving DecidableEq, Repr

/-- Outcome of `create_tar_gz` together with its effect on the target file. -/
structure TarGzOutcome where
  result : TarResult
  targetRemoved : Bool
deriving DecidableEq, Repr

/-- The post-wait logic of `create_tar_gz` (lib.rs:853-884): cancellation
check first (delete target, `Err("Cancelled")`), then the nonzero-exit
policy (success iff the target file exists), else `Ok`. -/
def create_tar_gz_finish (cancelled : Bool) (exitSuccess : Bool)
    (exitCode : Option Int) (targetExists : Bool) : TarGzOutcome :=
  if cancelled then
    { result := .err "Cancelled", targetRemoved := true }
  else if exitSuccess = false then
    if exitCode = some 1 ∧ targetExists then
      { result := .ok, targetRemoved := false }
    else if targetExists then
      { result := .ok, targetRemoved := false }
    else
      { result := .err "tar failed", targetRemoved := false }
  else
    { result := .ok, targetRemoved := false }

/-! ## Verification orchestrator: `verify_backup` (lib.rs:1364-1438)

The run directory is modelled as a map from archive filename to a
`FileState`; `hash_file` (lib.rs:776-790) is an abstract digest function
`hashFn` over the file's bytes (the orchestrator only compares digest
strings for equality), and a mid-stream read error is the
`unreadable` state. -/

/-- State of one archive file inside the run directory. -/
inductive FileState where
  | missing
  | unreadable (err : String)
  | file (bytes : List Nat)
deriving DecidableEq, Repr

/-- The run directory: archive filename to file state. -/
def RunFS := String → FileState

/-- The failure description for a digest mismatch (lib.rs:1405-1406):
archive name plus the first 16 characters of the expected and computed
digests. -/
def mismatchMsg (archive expected computed : String) : String :=
  archive ++ ": Hash stimmt nicht überein (erwartet: " ++ expected.take 16
    ++ ", berechnet: " ++ computed.take 16 ++ ")"

/-- Per-item verification (lib.rs:1395-1412): `none` when the archive
verifies, `some msg` with the pushed failure description otherwise. -/
def verifyItem (hashFn : List Nat → String) (fs : RunFS) (item : BackupItem) :
    Option String :=
  match fs item.archive with
  | .missing => some (item.archive ++ ": Datei nicht gefunden")
  | .unreadable e => some (item.archive ++ ": Fehler beim Lesen: " ++ e)
  | .file b =>
    if hashFn b = item.hash then none
    else some (mismatchMsg item.archive item.hash (hashFn b))

/-- The sequential loop of `verify_backup` (lib.rs:1389-1420): returns
the `verified_files` counter and the `failed_files` list in item order. -/
def verify_items (hashFn : List Nat → String) (fs : RunFS) :
    List BackupItem → Nat × List String
  | [] => (0, [])
  | item :: rest =>
    let r := verify_items hashFn fs rest
    match verifyItem hashFn fs item with
    | none => (r.1 + 1, r.2)
    | some msg => (r.1, msg :: r.2)

/-- `verify_backup` (lib.rs:1364-1438).  The manifest lookup
(`metadata.json` existence, read and parse, lib.rs:1375-1383) is the
`manifest` argument; `none` is the missing-manifest case. -/
def verify_backup (hashFn : List Nat → String) (fs : RunFS) (timestamp : String)
    (manifest : Option BackupMetadata) : Except String VerifyResult :=
  match manifest with
  | none => .error ("Backup nicht gefunden: " ++ timestamp)
  | some m =>
    let r := verify_items hashFn fs m.items
    let success := r.2.isEmpty
    .ok
      { success
        total_files := m.items.length
        verified_files := r.1
        failed_files := r.2
        message :=
          if success then
            "Alle " ++ toString m.items.length ++ " Dateien erfolgreich verifiziert!"
          else
            toString r.2.length ++ " von " ++ toString m.items.length
              ++ " Dateien fehlgeschlagen" }

/-- Concrete one-item manifest entry used to exercise the verification
theorems on a closed input. -/
def exItem : BackupItem :=
  { path := "~/Documents", archive := "docs.tar.gz", hash := "1"
    archive_size_bytes := 0, source_size_bytes := 0 }

/-- Concrete one-item manifest used to exercise the verification theorems. -/
def exManifest : BackupMetadata :=
  { timestamp := "t", items := [exItem], hash_algorithm := "sha256"
    total_source_size_bytes := 0, start_time := "", end_time := ""
    duration_seconds := 0 }

/-- Concrete digest function (byte count, rendered in decimal) used to
exercise the verification theorems. -/
def exHash : List Nat → String := fun b => toString b.length

/-- Concrete run directory holding the one archive of `exManifest` with
matching digest. -/
def exFS : RunFS := fun a => if a = "docs.tar.gz" then .file [5] else .missing

/-! ## Parallel verification: `verify_backup_parallel` (lib.rs:1440-1556)

Items are processed in fixed batches of 4 (`items.chunks(PARALLEL_VERIFY)`,
lib.rs:1474-1480); within a batch each item's thread pushes its failure
description in completion order and bumps a shared counter.  The
unspecified completion order inside one batch is modelled by a
reordering function `sched` subject to `sched c ~ c`. -/

/-- Fuel-indexed core of Rust's slice `chunks n`; the fuel is an upper
bound on the list length, making the recursion structural. -/
def chunksOfFuel (n : Nat) : Nat → List α → List (List α)
  | _, [] => []
  | 0, _ :: _ => []
  | fuel + 1, x :: xs =>
    if n = 0 then []
    else (x :: xs).take n :: chunksOfFuel n fuel (xs.drop (n - 1))

/-- Rust's slice `chunks n`: splits a list into consecutive runs of
length `n` (last one possibly shorter); empty for `n = 0`. -/
def chunksOf (n : Nat) (l : List α) : List (List α) :=
  chunksOfFuel n l.length l

/-- `verify_backup_parallel` (lib.rs:1440-1556): same manifest lookup and
per-item check as `verify_backup`, but the items are processed in batches
of 4; `sched` reorders each batch, modelling the completion order of the
batch's threads. -/
def verify_backup_parallel (hashFn : List Nat → String) (fs : RunFS)
    (sched : List BackupItem → List BackupItem) (timestamp : String)
    (manifest : Option BackupMetadata) : Except String VerifyResult :=
  match manifest with
  | none => .error ("Backup nicht gefunden: " ++ timestamp)
  | some m =>
    let results := (chunksOf 4 m.items).map fun c => verify_items hashFn fs (sched c)
    let verified := (results.map Prod.fst).sum
    let failed := (results.map Prod.snd).flatten
    let success := failed.isEmpty
    .ok
      { success
        total_files := m.items.length
        verified_files := verified
        failed_files := failed
        message :=
          if success then
            "✅ Alle " ++ toString m.items.length
              ++ " Dateien erfolgreich verifiziert (parallel)!"
          else
            "❌ " ++ toString failed.length ++ " von " ++ toString m.items.length
              ++ " Dateien fehlgeschlagen" }

/-! ## Archive naming and codec selection (lib.rs:976-977, 801-846, 993-1000)

`create_backup` derives the archive filename from the source's base name
(lib.rs:977) with an extension chosen by probing two fixed zstd install
paths (lib.rs:976).  The codec actually used is a separate decision:
files are gzip-compressed inline with `GzEncoder` (lib.rs:993-1000),
directories go through `create_tar_gz`, which probes `which zstd`
(lib.rs:801-806). -/

/-- Rust `str::to_lowercase` (ASCII fragment, `Char.toLower`). -/
def lowerStr (s : String) : String := ⟨s.data.map Char.toLower⟩

/-- Rust `str::replace(c, r)` for a one-character pattern and a
one-character replacement: maps that character pointwise. -/
def replaceChar (a b : Char) (s : String) : String :=
  ⟨s.data.map fun c => if c = a then b else c⟩

/-- The archive filename stem (lib.rs:977):
`name.to_lowercase().replace(' ', "-").replace('.', "_")`. -/
def normalizeStem (s : String) : String :=
  replaceChar '.' '_' (replaceChar ' ' '-' (lowerStr s))

/-- Host state consulted by the two independent zstd probes. -/
structure CodecEnv where
  zstdAtOpt : Bool
  zstdAtUsrLocal : Bool
  zstdOnPath : Bool
deriving DecidableEq, Repr

/-- The extension probe (lib.rs:976): `tar.zst` iff a zstd binary exists
at `/opt/homebrew/bin/zstd` or `/usr/local/bin/zstd`. -/
def archiveExt (env : CodecEnv) : String :=
  if env.zstdAtOpt || env.zstdAtUsrLocal then "tar.zst" else "tar.gz"

/-- The archive filename (lib.rs:977). -/
def archive_name (env : CodecEnv) (name : String) : String :=
  normalizeStem name ++ "." ++ archiveExt env

/-- Compression codec actually applied to an archive. -/
inductive Codec where
  | zstd
  | gzip
deriving DecidableEq, Repr

/-- The codec actually used for one configured source: files are
gzip-compressed inline (lib.rs:993-1000); directories go through
`create_tar_gz`, which uses zstd iff `which zstd` succeeds
(lib.rs:801-846). -/
def codecChosen (env : CodecEnv) (isFile : Bool) : Codec :=
  if isFile then .gzip
  else if env.zstdOnPath then .zstd else .gzip

/-- The extension that would faithfully reflect a codec. -/
def extOfCodec : Codec → String
  | .zstd => "tar.zst"
  | .gzip => "tar.gz"

/-- Codec environment with no zstd anywhere (pure-gzip host). -/
def exEnv : CodecEnv :=
  { zstdAtOpt := false, zstdAtUsrLocal := false, zstdOnPath := false }

/-- Codec environment with zstd installed at `/opt/homebrew/bin/zstd`
but absent from `PATH`. -/
def exEnvOpt : CodecEnv :=
  { zstdAtOpt := true, zstdAtUsrLocal := false, zstdOnPath := false }

/-! ## Backup orchestrator: the directory loop of `create_backup`
(lib.rs:945-1030) and its cancellation behaviour

The loop reads the process-wide flag `BACKUP_CANCELLED` at three points
per iteration: before the archive step (lib.rs:947), inside
`create_tar_gz` after the tar process is awaited (lib.rs:859), and after
the archive step (lib.rs:1006).  A cancellation request is modelled by
the first observation point at which the flag reads true (`none` =
the flag never reads true at any executed check). -/

/-- The three per-iteration observation points of the cancellation flag. -/
inductive Phase where
  | before
  | inside
  | after
deriving DecidableEq, Repr

/-- Order rank of an observation point within one iteration. -/
def Phase.rank : Phase → Nat
  | .before => 0
  | .inside => 1
  | .after => 2

/-- A cancellation schedule: the earliest observation point (iteration
index, phase) at which the flag reads true, if any. -/
def CancelSched := Option (Nat × Phase)

/-- Whether the flag reads true at observation point `q` under schedule
`sched` (true at the scheduled point and at every later one). -/
def observed (sched : CancelSched) (q : Nat × Phase) : Bool :=
  match sched with
  | none => false
  | some p => decide (p.1 < q.1 ∨ (p.1 = q.1 ∧ p.2.rank ≤ q.2.rank))

/-- One configured directory of the backup loop: the base name of its
expanded path and whether the expanded path exists (lib.rs:957-968). -/
structure DirSpec where
  name : String
  present : Bool
deriving DecidableEq, Repr

/-- Creating a file in the run directory (overwrites in place). -/
def addFile (a : String) (l : List String) : List String :=
  if a ∈ l then l else l ++ [a]

/-- Observable final state of one `create_backup` run over its directory
loop: result, archive files left in the run directory, whether
`metadata.json` was written, the `latest.json` content, and the final
value of the cancellation flag. -/
structure BackupRunState where
  result : Except String (List String)
  archives : List String
  manifestWritten : Bool
  latest : Option String
  cancelFlag : Bool
deriving Repr

/-- The directory loop of `create_backup` (lib.rs:945-1030) followed by
manifest and `latest.json` writes (lib.rs:1285-1345).  Per iteration:
pre-check (lib.rs:947-955, resets the flag and aborts), skip if absent
(lib.rs:965-968), archive via `create_tar_gz` whose internal check
(lib.rs:859-862) deletes the target and propagates `Err("Cancelled")`
through the `?` at lib.rs:1002 without resetting the flag, then the
post-check (lib.rs:1006-1016, deletes the archive, resets the flag,
aborts).  On completing all directories the manifest is written and
`latest.json` is set to the run's timestamp. -/
def backupLoop (env : CodecEnv) (sched : CancelSched) (timestamp : String)
    (latest0 : Option String) :
    Nat → List DirSpec → List String → List String → BackupRunState
  | _, [], fsArc, items =>
    { result := .ok items, archives := fsArc, manifestWritten := true
      latest := some timestamp, cancelFlag := sched.isSome }
  | i, d :: rest, fsArc, items =>
    if observed sched (i, .before) then
      { result := .error "Backup wurde abgebrochen", archives := fsArc
        manifestWritten := false, latest := latest0, cancelFlag := false }
    else if d.present = false then
      backupLoop env sched timestamp latest0 (i + 1) rest fsArc items
    else
      let a := archive_name env d.name
      let fs1 := addFile a fsArc
      if observed sched (i, .inside) then
        { result := .error "Cancelled", archives := fs1.erase a
          manifestWritten := false, latest := latest0, cancelFlag := true }
      else if observed sched (i, .after) then
        { result := .error "Backup wurde abgebrochen", archives := fs1.erase a
          manifestWritten := false, latest := latest0, cancelFlag := false }
      else
        backupLoop env sched timestamp latest0 (i + 1) rest fs1 (items ++ [a])

/-- One `create_backup` run over the configured directories, starting
from an empty run directory. -/
def create_backup_run (env : CodecEnv) (sched : CancelSched) (timestamp : String)
    (latest0 : Option String) (dirs : List DirSpec) : BackupRunState :=
  backupLoop env sched timestamp latest0 0 dirs [] []

/-! ## Restore orchestrator: `restore_items` (lib.rs:1680-1879) and
`extract_tar_gz` (lib.rs:1881-1966)

The destination filesystem is a map from resolved path to optional byte
content; the run directory is a map from archive filename to optional
archive content.  The five reserved identifiers dispatch to specialized
restorers (lib.rs:1729-1832) whose interaction with the package managers
is abstracted as a function `reserved` returning the count they report
or an error; they do not touch the modelled destination filesystem.
External extraction (ditto, lib.rs:1894-1897, with the tar fallback
chain) is modelled as writing the archived content at the destination. -/

/-- The destination filesystem: resolved path to optional content. -/
def DestFS := String → Option (List Nat)

/-- Mirrors struct `RestoreResult` (lib.rs:160-167). -/
structure RestoreResult where
  restored_count : Nat
  skipped_count : Nat
  error_count : Nat
  restored : List String
  skipped : List String
  errors : List String
deriving DecidableEq, Repr

/-- The five reserved pseudo-identifiers dispatched before the generic
branch (lib.rs:1729, 1754, 1774, 1795, 1815). -/
def reservedIds : List String :=
  ["homebrew-packages", "mas-apps", "vscode-extensions", "safari-settings",
    "homebrew-cache"]

/-- Rust `str::starts_with`, over the character list (ASCII paths). -/
def strStartsWith (s p : String) : Bool := s.data.take p.data.length == p.data

/-- Rust byte slicing `&s[n..]` (ASCII paths): drop the first `n`
characters. -/
def strDrop (s : String) (n : Nat) : String := ⟨s.data.drop n⟩

/-- Destination resolution for a generic item (lib.rs:1842-1848): `~/`
re-expanded against the home directory, absolute paths kept, anything
else joined to home. -/
def resolve_target (home : String) (p : String) : String :=
  if strStartsWith p "~/" then home ++ "/" ++ strDrop p 2
  else if strStartsWith p "/" then p
  else home ++ "/" ++ p

/-- `extract_tar_gz` (lib.rs:1881-1966): fails distinctly when the
target exists and overwrite is disabled (lib.rs:1888-1890); otherwise
the external extractor writes the archived content at the target. -/
def extract_tar_gz (fs : DestFS) (content : List Nat) (target : String)
    (overwrite : Bool) : Except String DestFS :=
  if overwrite = false ∧ (fs target).isSome then
    .error "Ziel existiert bereits und Überschreiben ist deaktiviert"
  else
    .ok (fun p => if p = target then some content else fs p)

/-- Which of the three outcome buckets one item lands in, with the
pushed description. -/
inductive RestoreOutcome where
  | toRestored (msg : String)
  | toSkipped (msg : String)
  | toErrors (msg : String)
deriving DecidableEq, Repr

/-- One iteration of the `restore_items` loop (lib.rs:1710-1869):
manifest lookup of the selected identifier, reserved-identifier
dispatch, then the generic archive-existence check, target resolution,
overwrite check and extraction. -/
def restore_one (reserved : String → Except String Nat) (home : String)
    (arcFS : String → Option (List Nat)) (m : BackupMetadata) (overwrite : Bool)
    (fs : DestFS) (item_path : String) : RestoreOutcome × DestFS :=
  match m.items.find? (fun it => it.path == item_path) with
  | none => (.toErrors (item_path ++ ": Nicht im Backup gefunden"), fs)
  | some backup_item =>
    if item_path = "homebrew-packages" then
      match reserved item_path with
      | .ok count =>
        if count > 0 then
          (.toRestored (item_path ++ " (" ++ toString count ++ " neu installiert)"), fs)
        else
          (.toRestored (item_path ++ " (alle bereits vorhanden)"), fs)
      | .error e => (.toErrors (item_path ++ ": " ++ e), fs)
    else if item_path = "mas-apps" then
      match reserved item_path with
      | .ok count => (.toRestored (item_path ++ " (" ++ toString count ++ " Apps)"), fs)
      | .error e => (.toErrors (item_path ++ ": " ++ e), fs)
    else if item_path = "vscode-extensions" then
      match reserved item_path with
      | .ok count =>
        (.toRestored (item_path ++ " (" ++ toString count ++ " Extensions)"), fs)
      | .error e => (.toErrors (item_path ++ ": " ++ e), fs)
    else if item_path = "safari-settings" then
      match reserved item_path with
      | .ok count => (.toRestored (item_path ++ " (" ++ toString count ++ " Dateien)"), fs)
      | .error e => (.toErrors (item_path ++ ": " ++ e), fs)
    else if item_path = "homebrew-cache" then
      match reserved item_path with
      | .ok count => (.toRestored (item_path ++ " (" ++ toString count ++ " MB)"), fs)
      | .error e => (.toErrors (item_path ++ ": " ++ e), fs)
    else
      match arcFS backup_item.archive with
      | none => (.toErrors (item_path ++ ": Archiv nicht gefunden"), fs)
      | some content =>
        let target := resolve_target home item_path
        if (fs target).isSome ∧ overwrite = false then
          (.toSkipped (item_path ++ ": Existiert bereits"), fs)
        else
          match extract_tar_gz fs content target overwrite with
          | .ok fs2 => (.toRestored item_path, fs2)
          | .error e => (.toErrors (item_path ++ ": " ++ e), fs)

/-- The `restore_items` loop over the selected identifiers, accumulating
the three outcome buckets in order. -/
def restore_items_go (reserved : String → Except String Nat) (home : String)
    (arcFS : String → Option (List Nat)) (m : BackupMetadata) (overwrite : Bool) :
    List String → DestFS → List String → List String → List String →
    (List String × List String × List String) × DestFS
  | [], fs, res, skip, errs => ((res, skip, errs), fs)
  | p :: rest, fs, res, skip, errs =>
    match restore_one reserved home arcFS m overwrite fs p with
    | (.toRestored msg, fs2) =>
      restore_items_go reserved home arcFS m overwrite rest fs2 (res ++ [msg]) skip errs
    | (.toSkipped msg, fs2) =>
      restore_items_go reserved home arcFS m overwrite rest fs2 res (skip ++ [msg]) errs
    | (.toErrors msg, fs2) =>
      restore_items_go reserved home arcFS m overwrite rest fs2 res skip (errs ++ [msg])

/-- `restore_items` (lib.rs:1680-1879): manifest lookup (`none` is the
missing-manifest case, lib.rs:1693-1695), then the per-item loop; the
final destination filesystem is returned alongside the result. -/
def restore_items (reserved : String → Except String Nat) (home : String)
    (arcFS : String → Option (List Nat)) (timestamp : String)
    (manifest : Option BackupMetadata) (itemsSel : List String) (overwrite : Bool)
    (fs : DestFS) : Except String RestoreResult × DestFS :=
  match manifest with
  | none => (.error ("Backup nicht gefunden: " ++ timestamp), fs)
  | some m =>
    let r := restore_items_go reserved home arcFS m overwrite itemsSel fs [] [] []
    (.ok
      { restored_count := r.1.1.length, skipped_count := r.1.2.1.length
        error_count := r.1.2.2.length, restored := r.1.1, skipped := r.1.2.1
        errors := r.1.2.2 }, r.2)

/-- Concrete run-directory content for the restore witnesses. -/
def exArcFS : String → Option (List Nat) :=
  fun a => if a = "docs.tar.gz" then some [1, 2] else none

/-- Concrete destination filesystem with the target already present. -/
def exDestFS : DestFS :=
  fun p => if p = "/Users/u/Documents" then some [9] else none

/-! ## Reserved-identifier restore: `restore_homebrew_packages`
(lib.rs:1968-2069)

After extracting the archive and renaming the payload to `Brewfile`, the
function counts declarative entries; if zero it returns 0 without
spawning `brew bundle`, otherwise it spawns `brew bundle` (modelled by
its observable stdout lines, exit success and whether stderr contains
"error") and counts `Installing `/`Upgrading ` lines. -/

/-- Rust `str::lines` (without trailing `\r` handling): split the
character list at every newline. -/
def splitOnChar (c : Char) : List Char → List (List Char)
  | [] => [[]]
  | x :: xs =>
    let r := splitOnChar c xs
    if x = c then [] :: r
    else
      match r with
      | [] => [[x]]
      | h :: t => (x :: h) :: t

/-- The lines of a string. -/
def linesOf (s : String) : List String := (splitOnChar (Char.ofNat 10) s.data).map
  fun l => ⟨l⟩

/-- Count of declarative Brewfile entries (lib.rs:2024-2026): lines
starting with `brew `, `cask ` or `tap `. -/
def count_brewfile_entries (content : String) : Nat :=
  (linesOf content).countP
    (fun l => strStartsWith l "brew " || strStartsWith l "cask "
      || strStartsWith l "tap ")

/-- Result of the post-extraction phase of `restore_homebrew_packages`,
with whether `brew bundle` was spawned. -/
structure BrewRestoreOutcome where
  result : Except String Nat
  bundleInvoked : Bool
deriving Repr

/-- Post-extraction logic of `restore_homebrew_packages`
(lib.rs:2022-2068): count entries, short-circuit on zero, otherwise
spawn `brew bundle`, count `Installing `/`Upgrading ` stdout lines,
fail only when the exit was nonzero AND stderr mentions an error AND
nothing was installed. -/
def restore_homebrew_packages_core (content : String) (bundleStdout : List String)
    (bundleSuccess : Bool) (stderrHasError : Bool) (stderrText : String) :
    BrewRestoreOutcome :=
  let count := count_brewfile_entries content
  if count = 0 then { result := .ok 0, bundleInvoked := false }
  else
    let installed := bundleStdout.countP
      (fun l => strStartsWith l "Installing " || strStartsWith l "Upgrading ")
    if bundleSuccess = false ∧ stderrHasError = true ∧ installed = 0 then
      { result := .error ("brew bundle fehlgeschlagen: " ++ stderrText)
        bundleInvoked := true }
    else if installed > 0 then
      { result := .ok installed, bundleInvoked := true }
    else
      { result := .ok 0, bundleInvoked := true }

/-! ## Timestamp order, `list_backups` (lib.rs:1598-1627) and the
`latest.json` pointer (lib.rs:1341-1345, 2677-2736)

Rust's `String::cmp` is byte-lexicographic; on the ASCII timestamps it
coincides with lexicographic comparison of the character lists. -/

/-- Byte-lexicographic less-or-equal on character lists. -/
def charListLe : List Char → List Char → Bool
  | [], _ => true
  | _ :: _, [] => false
  | a :: as, b :: bs =>
    if a.toNat < b.toNat then true
    else if b.toNat < a.toNat then false
    else charListLe as bs

/-- Rust `String` order (byte-lexicographic). -/
def strLe (a b : String) : Bool := charListLe a.data b.data

/-- One entry of the `data/` directory listing (lib.rs:1609-1622). -/
structure DataDirEntry where
  name : String
  isDir : Bool
  hasMetadata : Bool
deriving DecidableEq, Repr

/-- `list_backups` (lib.rs:1598-1627): one `BackupListItem` per
subdirectory, `hash_verified` = existence of `metadata.json` in it
(lib.rs:1613-1614), sorted descending by timestamp (lib.rs:1625). -/
def list_backups (dataExists : Bool) (entries : List DataDirEntry) :
    List BackupListItem :=
  if dataExists = false then []
  else
    ((entries.filter (fun e => e.isDir)).map
        (fun e => { timestamp := e.name, hash_verified := e.hasMetadata })).insertionSort
      (fun a b => strLe b.timestamp a.timestamp = true)

/-- `delete_backup` (lib.rs:2677-2736), restricted to its observable
effect on the set of run directories and the `latest.json` pointer:
remove the run directory (error if absent), and when the deleted run is
the currently-latest one, re-point `latest.json` at the largest
remaining run name (sort descending, take the first; lib.rs:2705-2728)
or remove it when none remain. -/
def delete_backup_latest (dirs : List String) (ts : String)
    (latest0 : Option String) : Except String (List String × Option String) :=
  if ts ∈ dirs then
    let remaining := dirs.erase ts
    match latest0 with
    | some l =>
      if l = ts then
        match (remaining.insertionSort (fun a b => strLe b a = true)).head? with
        | some newLatest => .ok (remaining, some newLatest)
        | none => .ok (remaining, none)
      else .ok (remaining, latest0)
    | none => .ok (remaining, none)
  else .error ("Backup " ++ ts ++ " nicht gefunden")

end MacBackup

namespace MacBackup

/-- C1: with a nonzero exit status, `create_tar_gz` returns `Ok` iff the
target archive file exists afterwards (failure exactly when it is
absent); and an observed cancellation flag deletes the target and returns
the cancellation error, regardless of the exit status. -/
theorem create_tar_gz_exit_policy (exitSuccess : Bool) (exitCode : Option Int)
    (targetExists : Bool) :
    (exitSuccess = false →
      ((create_tar_gz_finish false exitSuccess exitCode targetExists).result = .ok
        ↔ targetExists = true)) ∧
    ((create_tar_gz_finish true exitSuccess exitCode targetExists).result
        = .err "Cancelled" ∧
      (create_tar_gz_finish true exitSuccess exitCode targetExists).targetRemoved
        = true) := by
  refine ⟨fun hf => ?_, by simp [create_tar_gz_finish], by simp [create_tar_gz_finish]⟩
  subst hf
  by_cases h1 : exitCode = some 1 ∧ targetExists
  · simp [create_tar_gz_finish, h1, h1.2]
  · cases targetExists with
    | false => simp [create_tar_gz_finish, h1]
    | true => simp [create_tar_gz_finish, h1]

/-- Witness for `create_tar_gz_exit_policy` at exit code 2 with the
target present. -/
theorem create_tar_gz_exit_policy_witness :
    (false = false →
      ((create_tar_gz_finish false false (some 2) true).result = .ok ↔ true = true)) ∧
    ((create_tar_gz_finish true false (some 2) true).result = .err "Cancelled" ∧
      (create_tar_gz_finish true false (some 2) true).targetRemoved = true) :=
  create_tar_gz_exit_policy false (some 2) true

/-- The failure list of the sequential loop is the in-order `filterMap`
of the per-item check. -/
theorem verify_items_snd (hashFn : List Nat → String) (fs : RunFS)
    (items : List BackupItem) :
    (verify_items hashFn fs items).2 = items.filterMap (verifyItem hashFn fs) := by
  induction items with
  | nil => rfl
  | cons item rest ih =>
    simp only [verify_items, List.filterMap_cons]
    cases h : verifyItem hashFn fs item <;> simp [h, ih]

/-- The verified counter of the sequential loop counts the items whose
per-item check passes. -/
theorem verify_items_fst (hashFn : List Nat → String) (fs : RunFS)
    (items : List BackupItem) :
    (verify_items hashFn fs items).1
      = items.countP (fun it => (verifyItem hashFn fs it).isNone) := by
  induction items with
  | nil => rfl
  | cons item rest ih =>
    simp only [verify_items, List.countP_cons]
    cases h : verifyItem hashFn fs item <;> simp [h, ih]

/-- Verified counter plus failure-list length equals the item count. -/
theorem verify_items_fst_add_snd (hashFn : List Nat → String) (fs : RunFS)
    (items : List BackupItem) :
    (verify_items hashFn fs items).1 + (verify_items hashFn fs items).2.length
      = items.length := by
  induction items with
  | nil => rfl
  | cons item rest ih =>
    simp only [verify_items]
    cases h : verifyItem hashFn fs item <;>
      simp [h, List.length_cons] <;> omega

/-- If every item passes its per-item check, the loop verifies all items
and records no failure. -/
theorem verify_items_all_pass (hashFn : List Nat → String) (fs : RunFS)
    (items : List BackupItem)
    (h : ∀ it ∈ items, verifyItem hashFn fs it = none) :
    verify_items hashFn fs items = (items.length, []) := by
  induction items with
  | nil => rfl
  | cons item rest ih =>
    have hitem := h item (by simp)
    have hrest := ih (fun it hit => h it (by simp [hit]))
    simp [verify_items, hitem, hrest]

/-- Tampering with the one archive a manifest item references turns a
clean verification state into exactly one mismatch failure.  The
uniqueness hypothesis is the filter characterization: the tampered item
is the only manifest entry naming that archive. -/
theorem verify_items_tampered (hashFn : List Nat → String) (fs : RunFS)
    (items : List BackupItem) (j : BackupItem) (b' : List Nat)
    (hbase : ∀ it ∈ items, ∃ b, fs it.archive = .file b ∧ hashFn b = it.hash)
    (hfil : items.filter (fun it => it.archive == j.archive) = [j])
    (hneq : hashFn b' ≠ j.hash) :
    verify_items hashFn (fun a => if a = j.archive then .file b' else fs a) items
      = (items.length - 1, [mismatchMsg j.archive j.hash (hashFn b')]) := by
  induction items with
  | nil => simp at hfil
  | cons item rest ih =>
    rw [List.filter_cons] at hfil
    by_cases harch : item.archive = j.archive
    · rw [if_pos (by simp [harch])] at hfil
      obtain ⟨hhead, htail⟩ := List.cons_eq_cons.mp hfil
      have hrestnone : ∀ it ∈ rest, ¬ (it.archive == j.archive) = true :=
        List.filter_eq_nil_iff.mp htail
      have hrestpass : ∀ it ∈ rest,
          verifyItem hashFn (fun a => if a = j.archive then .file b' else fs a) it
            = none := by
        intro it hit
        have hne : it.archive ≠ j.archive := by
          intro heq
          exact hrestnone it hit (by simp [heq])
        obtain ⟨b, hb, hhb⟩ := hbase it (by simp [hit])
        simp [verifyItem, hne, hb, hhb]
      have hheadcheck : verifyItem hashFn
          (fun a => if a = j.archive then .file b' else fs a) item
            = some (mismatchMsg j.archive j.hash (hashFn b')) := by
        subst hhead
        simp [verifyItem, hneq]
      simp [verify_items, hheadcheck, verify_items_all_pass _ _ _ hrestpass]
    · rw [if_neg (by simp [harch])] at hfil
      obtain ⟨b, hb, hhb⟩ := hbase item (by simp)
      have hheadcheck : verifyItem hashFn
          (fun a => if a = j.archive then .file b' else fs a) item = none := by
        simp [verifyItem, harch, hb, hhb]
      have hrest := ih (fun it hit => hbase it (by simp [hit])) hfil
      have hlen : 0 < rest.length := by
        rcases rest with _ | ⟨x, xs⟩
        · simp at hfil
        · simp
      simp only [verify_items, hheadcheck, hrest, List.length_cons]
      have : rest.length - 1 + 1 = rest.length + 1 - 1 := by omega
      rw [this]

/-- C2: an item fails verification exactly when its archive is missing,
unreadable, or its recomputed digest differs from the stored one; the
success flag is true iff the failure list is empty; a mismatch failure
names the archive and the first 16 characters of the expected and
computed digests; and tampering with the one archive a manifest item
references after a clean backup yields `success = false`, a failure list
naming exactly that archive, and `verified_files = total_files - 1`. -/
theorem verify_backup_failure_semantics (hashFn : List Nat → String) (fs : RunFS)
    (timestamp : String) (m : BackupMetadata) :
    (∀ item, (verifyItem hashFn fs item).isSome
        ↔ (fs item.archive = .missing
            ∨ (∃ e, fs item.archive = .unreadable e)
            ∨ (∃ b, fs item.archive = .file b ∧ hashFn b ≠ item.hash))) ∧
    (∀ r, verify_backup hashFn fs timestamp (some m) = .ok r →
        (r.success = true ↔ r.failed_files = [])) ∧
    (∀ item b, fs item.archive = .file b → hashFn b ≠ item.hash →
        verifyItem hashFn fs item
          = some (item.archive ++ ": Hash stimmt nicht überein (erwartet: "
              ++ item.hash.take 16 ++ ", berechnet: " ++ (hashFn b).take 16 ++ ")")) ∧
    (∀ j b', (∀ it ∈ m.items, ∃ b, fs it.archive = .file b ∧ hashFn b = it.hash) →
        j ∈ m.items →
        m.items.countP (fun it => it.archive == j.archive) = 1 →
        hashFn b' ≠ j.hash →
        ∀ r, verify_backup hashFn (fun a => if a = j.archive then .file b' else fs a)
            timestamp (some m) = .ok r →
          r.success = false
            ∧ r.failed_files = [mismatchMsg j.archive j.hash (hashFn b')]
            ∧ r.verified_files = r.total_files - 1
            ∧ r.total_files = m.items.length) := by
  refine ⟨?_, ?_, ?_, ?_⟩
  · intro item
    cases hfs : fs item.archive with
    | missing => simp [verifyItem, hfs]
    | unreadable e => simp [verifyItem, hfs]
    | file b =>
      by_cases hh : hashFn b = item.hash
      · simp [verifyItem, hfs, hh]
      · simp [verifyItem, hfs, hh]
  · intro r hr
    simp only [verify_backup, Except.ok.injEq] at hr
    subst hr
    simp [List.isEmpty_iff]
  · intro item b hfs hh
    simp [verifyItem, hfs, hh, mismatchMsg]
  · intro j b' hbase hj huniq hneq r hr
    have hfil : m.items.filter (fun it => it.archive == j.archive) = [j] := by
      have hlen1 : (m.items.filter (fun it => it.archive == j.archive)).length = 1 := by
        rw [← List.countP_eq_length_filter]
        exact huniq
      obtain ⟨a, ha⟩ := List.length_eq_one.mp hlen1
      have hjf : j ∈ m.items.filter (fun it => it.archive == j.archive) :=
        List.mem_filter.mpr ⟨hj, by simp⟩
      rw [ha] at hjf
      simp at hjf
      rw [ha, hjf]
    have htamper := verify_items_tampered hashFn fs m.items j b' hbase hfil hneq
    simp only [verify_backup, htamper, Except.ok.injEq] at hr
    subst hr
    refine ⟨by simp, by simp, ?_, rfl⟩
    simp

/-- Witness for `verify_backup_failure_semantics`: tampering the single
archive of `exManifest` flips verification to exactly one mismatch
failure. -/
theorem verify_backup_failure_semantics_witness :
    ∃ r, verify_backup exHash (fun a => if a = exItem.archive then .file [7, 7] else exFS a)
        "t" (some exManifest) = .ok r
      ∧ r.success = false
      ∧ r.failed_files = [mismatchMsg exItem.archive exItem.hash (exHash [7, 7])]
      ∧ r.verified_files = r.total_files - 1
      ∧ r.total_files = exManifest.items.length := by
  refine ⟨_, rfl, ?_⟩
  exact (verify_backup_failure_semantics exHash exFS "t" exManifest).2.2.2
    exItem [7, 7]
    (by
      intro it hit
      simp [exManifest] at hit
      subst hit
      exact ⟨[5], by simp [exFS, exItem], by decide⟩)
    (by simp [exManifest])
    (by decide)
    (by decide)
    _ rfl

/-- Concatenating the fuel-indexed batches gives back the list whenever
the fuel covers its length. -/
theorem chunksOfFuel_flatten {α : Type} (n : Nat) (hn : 0 < n) :
    ∀ (fuel : Nat) (l : List α), l.length ≤ fuel →
      (chunksOfFuel n fuel l).flatten = l := by
  intro fuel
  induction fuel with
  | zero =>
    intro l hl
    cases l with
    | nil => rfl
    | cons x xs => simp at hl
  | succ f ih =>
    intro l hl
    cases l with
    | nil => rfl
    | cons x xs =>
      rw [chunksOfFuel, if_neg (by omega), List.flatten_cons,
        ih (xs.drop (n - 1)) (by simp only [List.length_drop]; simp at hl; omega)]
      have hdrop : xs.drop (n - 1) = (x :: xs).drop n := by
        cases n with
        | zero => omega
        | succ k => simp
      rw [hdrop, List.take_append_drop]

/-- Concatenating the batches gives back the item list. -/
theorem chunksOf_flatten {α : Type} (n : Nat) (hn : 0 < n) (l : List α) :
    (chunksOf n l).flatten = l :=
  chunksOfFuel_flatten n hn l.length l le_rfl

/-- C3: for a fixed manifest and fixed on-disk archive state, sequential
(`verify_backup`) and parallel (`verify_backup_parallel`) verification
agree on `total_files`, `verified_files`, the overall success flag, and
the failure list up to order (hence on the set of failing archive
names), for every within-batch completion order `sched`. -/
theorem verify_parallel_equiv (hashFn : List Nat → String) (fs : RunFS)
    (sched : List BackupItem → List BackupItem)
    (hsched : ∀ c, List.Perm (sched c) c) (timestamp : String) :
    (verify_backup_parallel hashFn fs sched timestamp none
        = verify_backup hashFn fs timestamp none) ∧
    (∀ m rs rp, verify_backup hashFn fs timestamp (some m) = .ok rs →
        verify_backup_parallel hashFn fs sched timestamp (some m) = .ok rp →
        rp.total_files = rs.total_files
          ∧ rp.verified_files = rs.verified_files
          ∧ rp.failed_files.Perm rs.failed_files
          ∧ (∀ x, x ∈ rp.failed_files ↔ x ∈ rs.failed_files)
          ∧ rp.success = rs.success) := by
  constructor
  · rfl
  · intro m rs rp hs hp
    simp only [verify_backup, Except.ok.injEq] at hs
    simp only [verify_backup_parallel, Except.ok.injEq] at hp
    subst hs
    subst hp
    have hflat : (chunksOf 4 m.items).flatten = m.items :=
      chunksOf_flatten 4 (by omega) m.items
    have hfailperm :
        (((chunksOf 4 m.items).map
            (fun c => verify_items hashFn fs (sched c))).map Prod.snd).flatten.Perm
          (verify_items hashFn fs m.items).2 := by
      rw [List.map_map]
      have hmapeq : ((chunksOf 4 m.items).map
            (Prod.snd ∘ fun c => verify_items hashFn fs (sched c)))
          = (chunksOf 4 m.items).map
            (fun c => (sched c).filterMap (verifyItem hashFn fs)) := by
        apply List.map_congr_left
        intro c _
        exact verify_items_snd hashFn fs (sched c)
      rw [hmapeq]
      have hFa : List.Forall₂ List.Perm
          ((chunksOf 4 m.items).map
            (fun c => (sched c).filterMap (verifyItem hashFn fs)))
          ((chunksOf 4 m.items).map
            (fun c => c.filterMap (verifyItem hashFn fs))) := by
        induction chunksOf 4 m.items with
        | nil => exact .nil
        | cons c cs ih => exact .cons ((hsched c).filterMap _) ih
      refine (List.Perm.flatten_congr hFa).trans ?_
      rw [← List.filterMap_flatten (verifyItem hashFn fs) (chunksOf 4 m.items),
        hflat, verify_items_snd]
    have hver :
        ((((chunksOf 4 m.items).map
            (fun c => verify_items hashFn fs (sched c))).map Prod.fst)).sum
          = (verify_items hashFn fs m.items).1 := by
      rw [List.map_map]
      have hmapeq : ((chunksOf 4 m.items).map
            (Prod.fst ∘ fun c => verify_items hashFn fs (sched c)))
          = (chunksOf 4 m.items).map
            (List.countP (fun it => (verifyItem hashFn fs it).isNone)) := by
        apply List.map_congr_left
        intro c _
        exact (verify_items_fst hashFn fs (sched c)).trans
          ((hsched c).countP_eq _)
      rw [hmapeq, ← List.countP_flatten, hflat, verify_items_fst]
    refine ⟨rfl, hver, hfailperm, fun x => hfailperm.mem_iff, ?_⟩
    rw [Bool.eq_iff_iff]
    simp only [List.isEmpty_iff, ← List.length_eq_zero, hfailperm.length_eq]

/-- Witness for `verify_parallel_equiv`: the one-item manifest, clean
state, identity completion order. -/
theorem verify_parallel_equiv_witness :
    ∃ rs rp, verify_backup exHash exFS "t" (some exManifest) = .ok rs
      ∧ verify_backup_parallel exHash exFS id "t" (some exManifest) = .ok rp
      ∧ rp.total_files = rs.total_files
      ∧ rp.verified_files = rs.verified_files
      ∧ rp.failed_files.Perm rs.failed_files
      ∧ (∀ x, x ∈ rp.failed_files ↔ x ∈ rs.failed_files)
      ∧ rp.success = rs.success := by
  refine ⟨_, _, rfl, rfl, ?_⟩
  exact (verify_parallel_equiv exHash exFS id (fun c => List.Perm.refl c) "t").2
    exManifest _ _ rfl rfl

/-- A scheduled observation point in a later iteration is not observed
at an earlier iteration's checks. -/
theorem observed_of_lt (p q : Nat × Phase) (h : q.1 < p.1) :
    observed (some p) q = false := by
  simp only [observed, decide_eq_false_iff_not]
  omega

/-- Membership in the run directory after creating one file. -/
theorem mem_addFile (x a : String) (l : List String) :
    x ∈ addFile a l ↔ x ∈ l ∨ x = a := by
  by_cases h : a ∈ l
  · simp only [addFile, if_pos h]
    constructor
    · exact Or.inl
    · rintro (hx | hx)
      · exact hx
      · exact hx ▸ h
  · simp [addFile, if_neg h]

/-- Deleting a freshly created file restores the run directory. -/
theorem erase_addFile (a : String) (l : List String) (h : a ∉ l) :
    (addFile a l).erase a = l := by
  simp only [addFile, if_neg h]
  rw [List.erase_append_right _ h, List.erase_cons_head, List.append_nil]

/-- Cancellation behaviour of the directory loop, generalized over the
starting iteration index and the accumulated run-directory state: a
cancellation first observed at any of the three checks of the iteration
archiving directory `N` aborts the run with a cancellation error, writes
no manifest, leaves `latest.json` untouched, leaves no archive file for
directory `N` on disk, and leaves the flag set iff the observation
happened inside `create_tar_gz`. -/
theorem backupLoop_cancelled (env : CodecEnv) (ts : String)
    (latest0 : Option String) (φ : Phase) :
    ∀ (dirs : List DirSpec) (N : Nat) (i : Nat) (fsArc items : List String)
      (hN : N < dirs.length),
      (dirs.get ⟨N, hN⟩).present = true →
      archive_name env (dirs.get ⟨N, hN⟩).name ∉ fsArc →
      (dirs.map (fun d => archive_name env d.name)).Nodup →
      ((backupLoop env (some (i + N, φ)) ts latest0 i dirs fsArc items).result
          = .error (if φ = .inside then "Cancelled" else "Backup wurde abgebrochen")
        ∧ (backupLoop env (some (i + N, φ)) ts latest0 i dirs fsArc items).manifestWritten
            = false
        ∧ (backupLoop env (some (i + N, φ)) ts latest0 i dirs fsArc items).latest
            = latest0
        ∧ archive_name env (dirs.get ⟨N, hN⟩).name
            ∉ (backupLoop env (some (i + N, φ)) ts latest0 i dirs fsArc items).archives
        ∧ (backupLoop env (some (i + N, φ)) ts latest0 i dirs fsArc items).cancelFlag
            = (φ == Phase.inside)) := by
  intro dirs
  induction dirs with
  | nil =>
    intro N i fsArc items hN
    simp at hN
  | cons d rest ih =>
    intro N i fsArc items hN hpres hnotin hnodup
    cases N with
    | zero =>
      have hget : (d :: rest).get ⟨0, hN⟩ = d := rfl
      rw [hget] at hpres hnotin ⊢
      simp only [Nat.add_zero]
      cases φ with
      | before =>
        have hobs : observed (some (i, Phase.before)) (i, .before) = true := by
          simp [observed, Phase.rank]
        simp [backupLoop, hobs, hnotin]
      | inside =>
        have hobs0 : observed (some (i, Phase.inside)) (i, .before) = false := by
          simp [observed, Phase.rank]
        have hobs1 : observed (some (i, Phase.inside)) (i, .inside) = true := by
          simp [observed, Phase.rank]
        simp [backupLoop, hobs0, hpres, hobs1, erase_addFile _ _ hnotin, hnotin]
      | after =>
        have hobs0 : observed (some (i, Phase.after)) (i, .before) = false := by
          simp [observed, Phase.rank]
        have hobs1 : observed (some (i, Phase.after)) (i, .inside) = false := by
          simp [observed, Phase.rank]
        have hobs2 : observed (some (i, Phase.after)) (i, .after) = true := by
          simp [observed, Phase.rank]
        simp [backupLoop, hobs0, hpres, hobs1, hobs2, erase_addFile _ _ hnotin,
          hnotin]
    | succ k =>
      have hget : (d :: rest).get ⟨k + 1, hN⟩
          = rest.get ⟨k, Nat.lt_of_succ_lt_succ hN⟩ := rfl
      rw [hget] at hpres hnotin ⊢
      have hobs0 : observed (some (i + (k + 1), φ)) (i, .before) = false :=
        observed_of_lt _ _ (by omega)
      have hobs1 : observed (some (i + (k + 1), φ)) (i, .inside) = false :=
        observed_of_lt _ _ (by omega)
      have hobs2 : observed (some (i + (k + 1), φ)) (i, .after) = false :=
        observed_of_lt _ _ (by omega)
      have hshift : i + (k + 1) = (i + 1) + k := by omega
      have hnodup' : (rest.map (fun d => archive_name env d.name)).Nodup :=
        (List.nodup_cons.mp hnodup).2
      by_cases hd : d.present = false
      · simp only [backupLoop, hobs0, Bool.false_eq_true, if_false, hd, if_true]
        rw [hshift]
        exact ih k (i + 1) fsArc items (Nat.lt_of_succ_lt_succ hN) hpres hnotin hnodup'
      · have hd' : d.present = true := by
          cases h : d.present
          · exact absurd h hd
          · rfl
        have hhead : archive_name env d.name
            ∉ rest.map (fun d => archive_name env d.name) :=
          (List.nodup_cons.mp hnodup).1
        have htargetmem : archive_name env (rest.get ⟨k, Nat.lt_of_succ_lt_succ hN⟩).name
            ∈ rest.map (fun d => archive_name env d.name) :=
          List.mem_map_of_mem _ (List.get_mem rest k (Nat.lt_of_succ_lt_succ hN))
        have hne : archive_name env (rest.get ⟨k, Nat.lt_of_succ_lt_succ hN⟩).name
            ≠ archive_name env d.name := by
          intro heq
          rw [heq] at htargetmem
          exact hhead htargetmem
        have hnotin' : archive_name env (rest.get ⟨k, Nat.lt_of_succ_lt_succ hN⟩).name
            ∉ addFile (archive_name env d.name) fsArc := by
          rw [mem_addFile]
          rintro (hmem | heq)
          · exact hnotin hmem
          · exact hne heq
        simp only [backupLoop, hobs0, Bool.false_eq_true, if_false, hd',
          Bool.true_eq_false, hobs1, hobs2]
        rw [hshift]
        exact ih k (i + 1) (addFile (archive_name env d.name) fsArc)
          (items ++ [archive_name env d.name]) (Nat.lt_of_succ_lt_succ hN)
          hpres hnotin' hnodup'

/-- C4 counterexample: when cancellation is first observed inside
`create_tar_gz` (lib.rs:859), the `Err("Cancelled")` propagates through
the `?` at lib.rs:1002 and `create_backup` returns without executing
either `BACKUP_CANCELLED.store(false)` (lib.rs:953, lib.rs:1014), so the
cancellation flag is NOT reset to false as the claim states. -/
theorem create_backup_cancel_flag_cex :
    (create_backup_run exEnv (some (0, Phase.inside)) "t" none
        [{ name := "docs", present := true }]).result = .error "Cancelled"
    ∧ ¬ ((create_backup_run exEnv (some (0, Phase.inside)) "t" none
        [{ name := "docs", present := true }]).cancelFlag = false) := by
  refine ⟨rfl, ?_⟩
  decide

/-- C4 (amended): a cancellation observed at any of the three checks of
the iteration archiving directory `N` leaves no archive file for
directory `N` on disk, writes no manifest and no `latest.json`, and
fails the whole run with a cancellation error; the flag is reset to
false at the pre- and post-archive checks, but left set when the
observation happens inside the archive step. -/
theorem create_backup_cancel_safety (env : CodecEnv) (N : Nat) (φ : Phase)
    (ts : String) (latest0 : Option String) (dirs : List DirSpec)
    (hN : N < dirs.length)
    (hpres : (dirs.get ⟨N, hN⟩).present = true)
    (hnodup : (dirs.map (fun d => archive_name env d.name)).Nodup) :
    (create_backup_run env (some (N, φ)) ts latest0 dirs).result
        = .error (if φ = .inside then "Cancelled" else "Backup wurde abgebrochen")
      ∧ (create_backup_run env (some (N, φ)) ts latest0 dirs).manifestWritten = false
      ∧ (create_backup_run env (some (N, φ)) ts latest0 dirs).latest = latest0
      ∧ archive_name env (dirs.get ⟨N, hN⟩).name
          ∉ (create_backup_run env (some (N, φ)) ts latest0 dirs).archives
      ∧ (create_backup_run env (some (N, φ)) ts latest0 dirs).cancelFlag
          = (φ == Phase.inside) := by
  have h := backupLoop_cancelled env ts latest0 φ dirs N 0 [] [] hN hpres
    (by simp) hnodup
  simpa [create_backup_run] using h

/-- Witness for `create_backup_cancel_safety`: one present directory,
cancellation observed at the post-archive check. -/
theorem create_backup_cancel_safety_witness :
    (create_backup_run exEnv (some (0, Phase.after)) "t" none
        [{ name := "docs", present := true }]).result
        = .error (if Phase.after = Phase.inside then "Cancelled"
            else "Backup wurde abgebrochen")
      ∧ (create_backup_run exEnv (some (0, Phase.after)) "t" none
          [{ name := "docs", present := true }]).manifestWritten = false
      ∧ (create_backup_run exEnv (some (0, Phase.after)) "t" none
          [{ name := "docs", present := true }]).latest = none
      ∧ archive_name exEnv (([{ name := "docs", present := true }] : List DirSpec).get
            ⟨0, by decide⟩).name
          ∉ (create_backup_run exEnv (some (0, Phase.after)) "t" none
            [{ name := "docs", present := true }]).archives
      ∧ (create_backup_run exEnv (some (0, Phase.after)) "t" none
          [{ name := "docs", present := true }]).cancelFlag
          = (Phase.after == Phase.inside) :=
  create_backup_cancel_safety exEnv 0 Phase.after "t" none
    [{ name := "docs", present := true }] (by decide) (by decide) (by decide)

/-- C5: restoring a generic (non-reserved) item whose archive is present:
with `overwrite = false` and an existing destination the item lands in
the skipped bucket and the destination filesystem is returned unchanged
(no write at all); with `overwrite = true` the item lands in the
restored bucket, the destination holds the archived content, and no
other path is touched. -/
theorem restore_generic_overwrite_semantics (reserved : String → Except String Nat)
    (home : String) (arcFS : String → Option (List Nat)) (ts : String)
    (m : BackupMetadata) (fs : DestFS) (id : String) (it : BackupItem)
    (content : List Nat)
    (hfind : m.items.find? (fun x => x.path == id) = some it)
    (hres : id ∉ reservedIds)
    (harc : arcFS it.archive = some content) :
    ((fs (resolve_target home id)).isSome = true →
      restore_items reserved home arcFS ts (some m) [id] false fs
        = (.ok
            { restored_count := 0, skipped_count := 1, error_count := 0
              restored := [], skipped := [id ++ ": Existiert bereits"]
              errors := [] }, fs))
    ∧ (∀ r fs2, restore_items reserved home arcFS ts (some m) [id] true fs
          = (.ok r, fs2) →
        r.restored = [id] ∧ r.skipped = [] ∧ r.errors = []
          ∧ fs2 (resolve_target home id) = some content
          ∧ ∀ p, p ≠ resolve_target home id → fs2 p = fs p) := by
  simp only [reservedIds, List.mem_cons, List.not_mem_nil, or_false, not_or] at hres
  obtain ⟨h1, h2, h3, h4, h5⟩ := hres
  constructor
  · intro hex
    simp [restore_items, restore_items_go, restore_one, hfind, h1, h2, h3, h4, h5,
      harc, hex]
  · intro r fs2 heq
    simp only [restore_items, restore_items_go, restore_one, hfind, h1, h2, h3, h4, h5,
      harc, extract_tar_gz, Bool.true_eq_false, and_false, false_and, if_false] at heq
    rw [Prod.mk.injEq] at heq
    obtain ⟨hr, hfs2⟩ := heq
    rw [Except.ok.injEq] at hr
    subst hr
    subst hfs2
    refine ⟨rfl, rfl, rfl, by simp, ?_⟩
    intro p hp
    simp [hp]

/-- Witness for `restore_generic_overwrite_semantics`: the one-item
manifest, archive content `[1, 2]`, destination already holding `[9]`. -/
theorem restore_generic_overwrite_semantics_witness :
    (restore_items (fun _ => .ok 0) "/Users/u" exArcFS "t" (some exManifest)
        ["~/Documents"] false exDestFS
      = (.ok
          { restored_count := 0, skipped_count := 1, error_count := 0
            restored := [], skipped := ["~/Documents: Existiert bereits"]
            errors := [] }, exDestFS))
    ∧ (∃ r fs2, restore_items (fun _ => .ok 0) "/Users/u" exArcFS "t" (some exManifest)
          ["~/Documents"] true exDestFS = (.ok r, fs2)
        ∧ r.restored = ["~/Documents"] ∧ r.skipped = [] ∧ r.errors = []
        ∧ fs2 (resolve_target "/Users/u" "~/Documents") = some [1, 2]) := by
  have h := restore_generic_overwrite_semantics (fun _ => .ok 0) "/Users/u" exArcFS
    "t" exManifest exDestFS "~/Documents" exItem [1, 2] rfl (by decide) rfl
  refine ⟨h.1 (by decide), ⟨_, _, rfl, ?_⟩⟩
  have h2 := h.2 _ _ rfl
  exact ⟨h2.1, h2.2.1, h2.2.2.1, h2.2.2.2.1⟩

/-- C6: a timestamp whose manifest (`metadata.json`) is absent makes
both `verify_backup` (lib.rs:1375-1378) and `restore_items`
(lib.rs:1693-1695) fail the whole operation with the not-found error,
and the destination filesystem is returned unchanged (neither operation
mutates anything; `verify_backup` is read-only by construction). -/
theorem missing_manifest_notfound (hashFn : List Nat → String) (fsRun : RunFS)
    (reserved : String → Except String Nat) (home : String)
    (arcFS : String → Option (List Nat)) (ts : String) (sel : List String)
    (overwrite : Bool) (fs : DestFS) :
    verify_backup hashFn fsRun ts none = .error ("Backup nicht gefunden: " ++ ts)
    ∧ restore_items reserved home arcFS ts none sel overwrite fs
        = (.error ("Backup nicht gefunden: " ++ ts), fs) :=
  ⟨rfl, rfl⟩

/-- The replaced character never survives a single-character replace
whose replacement differs from it. -/
theorem not_mem_replaceChar_self (a b : Char) (hba : b ≠ a) (s : String) :
    a ∉ (replaceChar a b s).data := by
  intro hmem
  simp only [replaceChar] at hmem
  rw [List.mem_map] at hmem
  obtain ⟨c, _, hc⟩ := hmem
  by_cases h : c = a
  · rw [if_pos h] at hc
    exact hba hc
  · rw [if_neg h] at hc
    exact h hc

/-- A character absent from the input and different from the replacement
stays absent after a single-character replace. -/
theorem not_mem_replaceChar_other (a b x : Char) (s : String) (hs : x ∉ s.data)
    (hxb : x ≠ b) : x ∉ (replaceChar a b s).data := by
  intro hmem
  simp only [replaceChar] at hmem
  rw [List.mem_map] at hmem
  obtain ⟨c, hcmem, hc⟩ := hmem
  by_cases h : c = a
  · rw [if_pos h] at hc
    exact hxb hc.symm
  · rw [if_neg h] at hc
    exact hs (hc ▸ hcmem)

/-- C7 counterexample: with a zstd binary at `/opt/homebrew/bin/zstd`
but not on `PATH`, a configured FILE is gzip-compressed inline
(lib.rs:993-1000) while the probe at lib.rs:976 names the archive
`.tar.zst` — the extension does not reflect the codec actually chosen. -/
theorem archive_ext_codec_cex :
    archiveExt exEnvOpt = "tar.zst"
    ∧ codecChosen exEnvOpt true = Codec.gzip
    ∧ archiveExt exEnvOpt ≠ extOfCodec (codecChosen exEnvOpt true) := by
  refine ⟨rfl, rfl, ?_⟩
  decide

/-- C7 (amended): the archive filename is the lower-cased base name with
spaces replaced by `-` and dots by `_`, plus `.tar.zst` iff a zstd
binary exists at `/opt/homebrew/bin/zstd` or `/usr/local/bin/zstd`
(`.tar.gz` otherwise); the normalized stem contains no space and no dot;
and that extension matches the codec actually chosen exactly when the
fixed-path probe agrees with the decision actually taken (files are
always gzip; directories use the `which zstd` probe). -/
theorem archive_name_spec (env : CodecEnv) (name : String) (isFile : Bool) :
    archive_name env name
        = replaceChar '.' '_' (replaceChar ' ' '-' (lowerStr name)) ++ "."
            ++ archiveExt env
    ∧ ' ' ∉ (normalizeStem name).data
    ∧ '.' ∉ (normalizeStem name).data
    ∧ (env.zstdAtOpt = false → env.zstdAtUsrLocal = false → archiveExt env = "tar.gz")
    ∧ ((env.zstdAtOpt = true ∨ env.zstdAtUsrLocal = true) → archiveExt env = "tar.zst")
    ∧ (archiveExt env = extOfCodec (codecChosen env isFile)
        ↔ (env.zstdAtOpt || env.zstdAtUsrLocal) = (!isFile && env.zstdOnPath)) := by
  refine ⟨rfl, ?_, ?_, ?_, ?_, ?_⟩
  · exact not_mem_replaceChar_other '.' '_' ' ' _
      (not_mem_replaceChar_self ' ' '-' (by decide) (lowerStr name)) (by decide)
  · exact not_mem_replaceChar_self '.' '_' (by decide) _
  · intro h1 h2
    simp [archiveExt, h1, h2]
  · intro h
    rcases h with h | h <;> simp [archiveExt, h]
  · rcases env with ⟨o, u, p⟩
    cases o <;> cases u <;> cases p <;> cases isFile <;> decide

/-- Witness for `archive_name_spec` on the name `My Docs.old` with zstd
at the fixed install path only and a directory source. -/
theorem archive_name_spec_witness :
    archive_name exEnvOpt "My Docs.old" = "my-docs_old.tar.zst"
    ∧ ' ' ∉ (normalizeStem "My Docs.old").data
    ∧ '.' ∉ (normalizeStem "My Docs.old").data
    ∧ archiveExt exEnvOpt = "tar.zst"
    ∧ (archiveExt exEnvOpt = extOfCodec (codecChosen exEnvOpt false)
        ↔ (exEnvOpt.zstdAtOpt || exEnvOpt.zstdAtUsrLocal)
            = (!false && exEnvOpt.zstdOnPath)) := by
  have h := archive_name_spec exEnvOpt "My Docs.old" false
  exact ⟨by decide, h.2.1, h.2.2.1, h.2.2.2.2.1 (Or.inl rfl), h.2.2.2.2.2⟩

/-- C8: a Brewfile with zero declarative `brew `/`cask `/`tap ` entries
makes `restore_homebrew_packages` return 0 restored without spawning
`brew bundle`. -/
theorem restore_homebrew_zero_entries (content : String) (out : List String)
    (succ errFlag : Bool) (stderrText : String)
    (h : count_brewfile_entries content = 0) :
    restore_homebrew_packages_core content out succ errFlag stderrText
      = { result := .ok 0, bundleInvoked := false } := by
  simp [restore_homebrew_packages_core, h]

/-- Witness for `restore_homebrew_zero_entries`: a Brewfile holding only
a comment and a `mas` line (which is deliberately not counted). -/
theorem restore_homebrew_zero_entries_witness :
    restore_homebrew_packages_core "# empty\nmas \"App\", id: 497799835\n"
        [] true false ""
      = { result := .ok 0, bundleInvoked := false } :=
  restore_homebrew_zero_entries "# empty\nmas \"App\", id: 497799835\n"
    [] true false "" (by decide)

/-- Byte-lexicographic order is reflexive. -/
theorem charListLe_refl : ∀ as : List Char, charListLe as as = true := by
  intro as
  induction as with
  | nil => rfl
  | cons a as ih => simp [charListLe, ih]

/-- Byte-lexicographic order is total. -/
theorem charListLe_total : ∀ as bs : List Char,
    charListLe as bs = true ∨ charListLe bs as = true := by
  intro as
  induction as with
  | nil => intro bs; left; rfl
  | cons a as ih =>
    intro bs
    cases bs with
    | nil => right; rfl
    | cons b bs =>
      by_cases h1 : a.toNat < b.toNat
      · left
        simp [charListLe, h1]
      · by_cases h2 : b.toNat < a.toNat
        · right
          simp [charListLe, h2]
        · rcases ih bs with h | h
          · left
            simp [charListLe, h1, h2, h]
          · right
            simp [charListLe, h1, h2, h]

/-- Byte-lexicographic order is transitive. -/
theorem charListLe_trans : ∀ as bs cs : List Char,
    charListLe as bs = true → charListLe bs cs = true →
    charListLe as cs = true := by
  intro as
  induction as with
  | nil => intro bs cs _ _; rfl
  | cons a as ih =>
    intro bs cs hab hbc
    cases bs with
    | nil => simp [charListLe] at hab
    | cons b bs =>
      cases cs with
      | nil => simp [charListLe] at hbc
      | cons c cs =>
        simp only [charListLe] at hab hbc ⊢
        by_cases h1 : a.toNat < b.toNat
        · rw [if_pos h1] at hab
          by_cases h2 : b.toNat < c.toNat
          · rw [if_pos (show a.toNat < c.toNat by omega)]
          · rw [if_neg h2] at hbc
            by_cases h3 : c.toNat < b.toNat
            · rw [if_pos h3] at hbc
              exact absurd hbc (by decide)
            · rw [if_pos (show a.toNat < c.toNat by omega)]
        · rw [if_neg h1] at hab
          by_cases h4 : b.toNat < a.toNat
          · rw [if_pos h4] at hab
            exact absurd hab (by decide)
          · rw [if_neg h4] at hab
            by_cases h2 : b.toNat < c.toNat
            · rw [if_pos (show a.toNat < c.toNat by omega)]
            · rw [if_neg h2] at hbc
              by_cases h3 : c.toNat < b.toNat
              · rw [if_pos h3] at hbc
                exact absurd hbc (by decide)
              · rw [if_neg h3] at hbc
                rw [if_neg (show ¬ a.toNat < c.toNat by omega),
                  if_neg (show ¬ c.toNat < a.toNat by omega)]
                exact ih bs cs hab hbc

/-- The head of the descending sort of a nonempty list of run names is
its byte-lexicographic maximum. -/
theorem sortDesc_head_max (l : List String) (hne : l ≠ []) :
    ∃ mx, (l.insertionSort (fun a b => strLe b a = true)).head? = some mx
      ∧ mx ∈ l ∧ ∀ x ∈ l, strLe x mx = true := by
  haveI : IsTotal String (fun a b => strLe b a = true) :=
    ⟨fun a b => charListLe_total b.data a.data⟩
  haveI : IsTrans String (fun a b => strLe b a = true) :=
    ⟨fun a b c hab hbc => charListLe_trans c.data b.data a.data hbc hab⟩
  have hperm := List.perm_insertionSort (fun a b : String => strLe b a = true) l
  have hsorted := List.sorted_insertionSort (fun a b : String => strLe b a = true) l
  cases hs : l.insertionSort (fun a b => strLe b a = true) with
  | nil =>
    exfalso
    rw [hs] at hperm
    exact hne hperm.symm.eq_nil
  | cons a t =>
    rw [hs] at hperm hsorted
    refine ⟨a, rfl, hperm.mem_iff.mp (List.mem_cons_self a t), ?_⟩
    intro x hx
    rcases List.mem_cons.mp (hperm.mem_iff.mpr hx) with hxa | hxt
    · subst hxa
      exact charListLe_refl x.data
    · exact (List.sorted_cons.mp hsorted).1 x hxt

/-- On a successful path the directory loop ends with the manifest
written and `latest.json` pointing at the run's timestamp. -/
theorem backupLoop_ok (env : CodecEnv) (sched : CancelSched) (ts : String)
    (latest0 : Option String) :
    ∀ (dirs : List DirSpec) (i : Nat) (fsArc items xs : List String),
      (backupLoop env sched ts latest0 i dirs fsArc items).result = .ok xs →
      (backupLoop env sched ts latest0 i dirs fsArc items).latest = some ts
        ∧ (backupLoop env sched ts latest0 i dirs fsArc items).manifestWritten
            = true := by
  intro dirs
  induction dirs with
  | nil => intro i fsArc items xs _; exact ⟨rfl, rfl⟩
  | cons d rest ih =>
    intro i fsArc items xs h
    simp only [backupLoop] at h ⊢
    by_cases h0 : observed sched (i, .before) = true
    · rw [if_pos h0] at h
      exact absurd h (by simp)
    · rw [if_neg h0] at h ⊢
      by_cases h1 : d.present = false
      · rw [if_pos h1] at h ⊢
        exact ih _ _ _ _ h
      · rw [if_neg h1] at h ⊢
        by_cases h2 : observed sched (i, .inside) = true
        · rw [if_pos h2] at h
          exact absurd h (by simp)
        · rw [if_neg h2] at h ⊢
          by_cases h3 : observed sched (i, .after) = true
          · rw [if_pos h3] at h
            exact absurd h (by simp)
          · rw [if_neg h3] at h ⊢
            exact ih _ _ _ _ h

/-- C9: `latest.json` is set to the new run's timestamp on every
successful backup run; deleting the currently-latest run re-points it
at the byte-lexicographically largest remaining run (removing it when
none remain), and deleting any other run leaves it unchanged. -/
theorem latest_pointer_invariant :
    (∀ (env : CodecEnv) (sched : CancelSched) (ts : String)
        (latest0 : Option String) (dirs : List DirSpec) (xs : List String),
        (create_backup_run env sched ts latest0 dirs).result = .ok xs →
        (create_backup_run env sched ts latest0 dirs).latest = some ts
          ∧ (create_backup_run env sched ts latest0 dirs).manifestWritten = true)
    ∧ (∀ (dirs : List String) (ts : String) (latest0 : Option String)
        (remaining : List String) (newLatest : Option String),
        delete_backup_latest dirs ts latest0 = .ok (remaining, newLatest) →
        remaining = dirs.erase ts
          ∧ (latest0 ≠ some ts → newLatest = latest0)
          ∧ (latest0 = some ts → remaining = [] → newLatest = none)
          ∧ (latest0 = some ts → remaining ≠ [] →
              ∃ mx, newLatest = some mx ∧ mx ∈ remaining
                ∧ ∀ x ∈ remaining, strLe x mx = true)) := by
  constructor
  · intro env sched ts latest0 dirs xs h
    exact backupLoop_ok env sched ts latest0 dirs 0 [] [] xs h
  · intro dirs ts latest0 remaining newLatest h
    by_cases hmem : ts ∈ dirs
    · cases latest0 with
      | none =>
        simp only [delete_backup_latest, if_pos hmem] at h
        simp only [Except.ok.injEq, Prod.mk.injEq] at h
        obtain ⟨h1, h2⟩ := h
        subst h1
        subst h2
        exact ⟨rfl, fun _ => rfl, fun hc => absurd hc (by simp),
          fun hc => absurd hc (by simp)⟩
      | some l =>
        simp only [delete_backup_latest, if_pos hmem] at h
        by_cases hl : l = ts
        · subst hl
          rw [if_pos rfl] at h
          cases hhead : ((dirs.erase l).insertionSort
              (fun a b => strLe b a = true)).head? with
          | none =>
            rw [hhead] at h
            simp only [Except.ok.injEq, Prod.mk.injEq] at h
            obtain ⟨h1, h2⟩ := h
            subst h1
            subst h2
            have hnil : dirs.erase l = [] := by
              have hperm := List.perm_insertionSort
                (fun a b : String => strLe b a = true) (dirs.erase l)
              rw [List.head?_eq_none_iff] at hhead
              rw [hhead] at hperm
              exact hperm.symm.eq_nil
            exact ⟨rfl, fun hne => absurd rfl hne, fun _ _ => rfl,
              fun _ hne => absurd hnil hne⟩
          | some mx =>
            rw [hhead] at h
            simp only [Except.ok.injEq, Prod.mk.injEq] at h
            obtain ⟨h1, h2⟩ := h
            subst h1
            subst h2
            refine ⟨rfl, fun hne => absurd rfl hne, ?_, ?_⟩
            · intro _ hnil
              rw [hnil] at hhead
              simp [List.insertionSort] at hhead
            · intro _ hne
              obtain ⟨mx', hmx'head, hmx'mem, hmx'max⟩ :=
                sortDesc_head_max (dirs.erase l) hne
              rw [hhead] at hmx'head
              obtain hmxeq := Option.some.injEq .. ▸ hmx'head
              injection hmx'head with hmxeq
              subst hmxeq
              exact ⟨mx, rfl, hmx'mem, hmx'max⟩
        · rw [if_neg hl] at h
          simp only [Except.ok.injEq, Prod.mk.injEq] at h
          obtain ⟨h1, h2⟩ := h
          subst h1
          subst h2
          refine ⟨rfl, fun _ => rfl, ?_, ?_⟩
          · intro hc
            exact absurd (Option.some.inj hc) hl
          · intro hc
            exact absurd (Option.some.inj hc) hl
    · simp only [delete_backup_latest, if_neg hmem] at h
      exact absurd h (by simp)

/-- Witness for `latest_pointer_invariant`: a completed one-directory
run, and deletion of the latest of two runs. -/
theorem latest_pointer_invariant_witness :
    ((create_backup_run exEnv none "t" none
        [{ name := "docs", present := true }]).latest = some "t"
      ∧ (create_backup_run exEnv none "t" none
          [{ name := "docs", present := true }]).manifestWritten = true)
    ∧ (["a"] = (["a", "b"] : List String).erase "b"
      ∧ ∃ mx, (some "a" : Option String) = some mx ∧ mx ∈ (["a"] : List String)
          ∧ ∀ x ∈ (["a"] : List String), strLe x mx = true) := by
  have h1 := latest_pointer_invariant.1 exEnv none "t" none
    [{ name := "docs", present := true }] ["docs.tar.gz"] rfl
  have h2 := latest_pointer_invariant.2 ["a", "b"] "b" (some "b") ["a"] (some "a") rfl
  exact ⟨h1, h2.1, h2.2.2.2 rfl (by decide)⟩

/-- C10: `list_backups` returns one entry per subdirectory of the data
directory, each entry's `hash_verified` being exactly the existence of
`metadata.json` in that run directory, sorted descending by timestamp;
a missing data directory yields the empty list. -/
theorem list_backups_spec (entries : List DataDirEntry) :
    (list_backups true entries).Perm
        ((entries.filter (fun e => e.isDir)).map
          (fun e => { timestamp := e.name, hash_verified := e.hasMetadata }))
    ∧ (list_backups true entries).Sorted
        (fun a b => strLe b.timestamp a.timestamp = true)
    ∧ (∀ it, it ∈ list_backups true entries
        ↔ ∃ e, e ∈ entries ∧ e.isDir = true
            ∧ it = { timestamp := e.name, hash_verified := e.hasMetadata })
    ∧ (list_backups true entries).length
        = (entries.filter (fun e => e.isDir)).length
    ∧ list_backups false entries = [] := by
  haveI : IsTotal BackupListItem (fun a b => strLe b.timestamp a.timestamp = true) :=
    ⟨fun a b => charListLe_total b.timestamp.data a.timestamp.data⟩
  haveI : IsTrans BackupListItem (fun a b => strLe b.timestamp a.timestamp = true) :=
    ⟨fun a b c hab hbc =>
      charListLe_trans c.timestamp.data b.timestamp.data a.timestamp.data hbc hab⟩
  have hperm : (list_backups true entries).Perm
      ((entries.filter (fun e => e.isDir)).map
        (fun e => { timestamp := e.name, hash_verified := e.hasMetadata })) := by
    simp only [list_backups, Bool.true_eq_false, if_neg (by decide : ¬ (true = false))]
    exact List.perm_insertionSort _ _
  refine ⟨hperm, ?_, ?_, hperm.length_eq.trans (List.length_map _ _), rfl⟩
  · simp only [list_backups, Bool.true_eq_false, if_neg (by decide : ¬ (true = false))]
    exact List.sorted_insertionSort _ _
  · intro it
    rw [hperm.mem_iff]
    simp only [List.mem_map, List.mem_filter]
    constructor
    · rintro ⟨e, ⟨hmem, hdir⟩, heq⟩
      exact ⟨e, hmem, hdir, heq.symm⟩
    · rintro ⟨e, hmem, hdir, heq⟩
      exact ⟨e, ⟨hmem, hdir⟩, heq.symm⟩

end MacBackup
